import Mathlib

/-!
Verification of the role-dependency revocation pipeline of a Discord
role-management bot, embedded shallowly from the JavaScript source
(src/index.js, src/commands/removeAllRolesCommand.js).
-/

namespace RoleBot

/-- Association-list lookup, modelling both `Map.get` and plain-object
property access (`obj[key]`) in the JavaScript source; `none` models
`undefined`. -/
def alistGet {α : Type} (m : List (String × α)) (k : String) : Option α :=
  (m.find? (fun p => p.1 == k)).map (fun p => p.2)

/-- Association-list update, modelling `Map.set` / `obj[key] = v`. -/
def alistSet {α : Type} (m : List (String × α)) (k : String) (v : α) :
    List (String × α) :=
  (k, v) :: m.filter (fun p => !(p.1 == k))

/-- A role-dependency record, from the `RoleManager` class
(src/index.js lines 82-94): `roleId`, display `roleName`, and the list
of role ids this role depends on (`removalDependencies`). -/
structure RoleManager where
  roleId : String
  roleName : String
  removalDependencies : List String
deriving DecidableEq, Repr

/-- RoleManager.checkRemovalNeeded (src/index.js lines 89-93): the role
must be removed iff the member held it in the old snapshot and some
dependency is absent from the new snapshot.  Membership snapshots are
the sets of role ids held, modelled as lists (`roles.cache.has`
becomes `List.contains`). -/
def checkRemovalNeeded (r : RoleManager) (oldRoles newRoles : List String) : Bool :=
  let hasRoleBefore := oldRoles.contains r.roleId
  let shouldRemoveRole := r.removalDependencies.any (fun id => !(newRoles.contains id))
  hasRoleBefore && shouldRemoveRole

/-- The revocation plan computed by the member-update handler
(src/index.js line 292): filter the dependency set by
`checkRemovalNeeded` and keep the role ids. -/
def plan (depset : List RoleManager) (before after : List String) : List String :=
  (depset.filter (fun r => checkRemovalNeeded r before after)).map
    (fun r => r.roleId)

/-- DEBOUNCE_TIME (src/index.js line 54): 1500 ms. -/
def DEBOUNCE_TIME : Int := 1500

/-- The per-member debounce gate inlined in the `guildMemberUpdate`
handler (src/index.js lines 287-291): return early (false) when
`now - (roleUpdateLastProcessed.get(memberId) || 0) < DEBOUNCE_TIME`,
otherwise record `now` for the member and proceed (true).  Returns the
decision together with the updated map. -/
def shouldProcess (m : List (String × Int)) (id : String) (now : Int) :
    Bool × List (String × Int) :=
  if now - ((alistGet m id).getD 0) < DEBOUNCE_TIME then (false, m)
  else (true, alistSet m id now)

/-- Result of the file-system access in `loadRoles` (src/index.js lines
129-137): the file may be absent (`fs.existsSync` false), the
asynchronous read may fail (`err` in the callback), or it yields the
raw content string. -/
inductive ReadResult where
  | missing
  | readError
  | content (s : String)
deriving DecidableEq

/-- The mutable configuration state of the bot (src/index.js lines
60-62): `lastKnownContent` maps a guild id to the fingerprint string of
the last content stored for it, and `roles` maps a guild id to its
currently published dependency set. -/
structure ConfigState where
  lastKnownContent : List (String × String)
  roles : List (String × List RoleManager)
deriving DecidableEq

/-- Observable outcome of one `loadRoles` call. `parseException` marks
the case where `JSON.parse` throws inside the read callback: the
exception is not caught anywhere in `loadRoles`. -/
inductive LoadOutcome where
  | skippedMissing
  | skippedReadError
  | noChange
  | reloaded
  | parseException
deriving DecidableEq

/-- loadRoles (src/index.js lines 127-146).  `JSON.parse` plus the
`map` to `RoleManager` instances is abstracted as the `parse`
parameter (`none` models a thrown parse exception).  Faithful to the
statement order of the source: when the guard
`!checkContent || currentContent !== lastKnownContent[guildId]` passes,
the fingerprint is assigned (line 141) before parsing (line 142), so a
parse exception leaves the new fingerprint in place and the roles
untouched. -/
def loadRoles (parse : String → Option (List RoleManager)) (guildId : String)
    (checkContent : Bool) (readRes : ReadResult) (st : ConfigState) :
    ConfigState × LoadOutcome :=
  match readRes with
  | .missing => (st, .skippedMissing)
  | .readError => (st, .skippedReadError)
  | .content s =>
    if !checkContent || !(alistGet st.lastKnownContent guildId == some s) then
      let lkc := alistSet st.lastKnownContent guildId s
      match parse s with
      | some rs => ({ lastKnownContent := lkc,
                      roles := alistSet st.roles guildId rs }, .reloaded)
      | none => ({ lastKnownContent := lkc, roles := st.roles }, .parseException)
    else
      (st, .noChange)

/-- CONFIG_RELOAD_DEBOUNCE (src/index.js line 55): 2000 ms. -/
def CONFIG_RELOAD_DEBOUNCE : Int := 2000

/-- Per-guild timer state for the debounced configuration reload:
`pending` is the fire time of the single timer slot
`configReloadTimer[guildId]` (src/index.js line 61), and `fired`
records the times at which a scheduled `loadRoles(guildId, true)`
actually ran. -/
structure DebounceState where
  pending : Option Int
  fired : List Int
deriving DecidableEq

/-- Advance wall-clock time to `t`: a pending timer whose fire time has
been reached runs its callback (the reload) and leaves the slot
empty. -/
def advanceTo (st : DebounceState) (t : Int) : DebounceState :=
  match st.pending with
  | some f => if f ≤ t then { pending := none, fired := st.fired ++ [f] } else st
  | none => st

/-- debounceReloadConfig (src/index.js lines 163-168) called at time
`t`: `clearTimeout` discards any pending timer for the guild, then
`setTimeout` schedules the reload at `t + CONFIG_RELOAD_DEBOUNCE`. -/
def debounceReloadConfig (st : DebounceState) (t : Int) : DebounceState :=
  { st with pending := some (t + CONFIG_RELOAD_DEBOUNCE) }

/-- A change notification from the file watcher (src/index.js lines
175-180) arriving at time `t`: time first advances to `t` (a timer
already due fires before the event handler runs), then
`debounceReloadConfig` is called. -/
def notifyAt (st : DebounceState) (t : Int) : DebounceState :=
  debounceReloadConfig (advanceTo st t) t

/-- A sequence of change notifications processed in order. -/
def runNotifications (ts : List Int) (st : DebounceState) : DebounceState :=
  ts.foldl notifyAt st

/-- Last element of the nonempty list `t :: rest` of notification
times. -/
def lastOf (t : Int) : List Int → Int
  | [] => t
  | u :: rest => lastOf u rest

/-- A queued revocation task (src/index.js line 294):
`{ member, rolesToRemove }`. -/
structure Job where
  memberId : String
  rolesToRemove : List String
deriving DecidableEq, Repr

/-- The pacing delay of `processQueue` (src/index.js lines 218 and
222): `1000 / 50` ms. -/
def PACING : Int := 1000 / 50

/-- Trace of one drain of the update queue by `processNext`
(src/index.js lines 208-224).  Each queue entry carries the job, the
success of its `member.roles.remove` call, and the duration the call
takes to settle; the trace records, in execution order, the job, the
time its removal call is issued, and its outcome.  Both the `.then`
and the `.catch` branch schedule the next step `PACING` ms after the
call settles, so the recursion is identical for success and
failure. -/
def drainTrace (t : Int) : List (Job × Bool × Int) → List (Job × Int × Bool)
  | [] => []
  | (j, ok, dur) :: rest => (j, t, ok) :: drainTrace (t + dur + PACING) rest

/-- State of the paced queue (src/index.js lines 58-59): the FIFO task
list `updateQueue`, the `isProcessingQueue` flag, and the number of
live `processNext` continuation chains (consumers). -/
structure QueueState where
  updateQueue : List Job
  isProcessingQueue : Bool
  consumers : Nat
deriving DecidableEq

/-- processQueue (src/index.js lines 204-207): return at once when the
flag is set, otherwise set the flag and start one `processNext`
chain. -/
def startQueue (st : QueueState) : QueueState :=
  if st.isProcessingQueue then st
  else { st with isProcessingQueue := true, consumers := st.consumers + 1 }

/-- updateQueue.push (src/index.js line 294): append at the tail. -/
def enqueue (st : QueueState) (j : Job) : QueueState :=
  { st with updateQueue := st.updateQueue ++ [j] }

/-- One step of a live `processNext` chain (src/index.js lines
208-224): with an empty queue it clears the flag and ends the chain;
otherwise it shifts the head job off the queue. -/
def consumerStep (st : QueueState) : QueueState :=
  if st.consumers = 0 then st
  else
    match st.updateQueue with
    | [] => { st with isProcessingQueue := false, consumers := st.consumers - 1 }
    | _ :: rest => { st with updateQueue := rest }

/-- The events that mutate the queue state. -/
inductive QEvent where
  | start
  | step
  | enq (j : Job)

/-- Apply one queue event. -/
def applyEvent (st : QueueState) : QEvent → QueueState
  | .start => startQueue st
  | .step => consumerStep st
  | .enq j => enqueue st j

/-- Single-consumer invariant of the paced queue: never more than one
live `processNext` chain, and the `isProcessingQueue` flag is set
exactly while one is live. -/
def QInv (st : QueueState) : Prop :=
  st.consumers ≤ 1 ∧ (st.isProcessingQueue = true ↔ st.consumers = 1)

instance (st : QueueState) : Decidable (QInv st) := by
  unfold QInv; infer_instance

/-- A fetched guild member as seen by the bulk-revoke command: its id
and whether it currently holds the role under removal
(`member.roles.cache.has(roleId)`). -/
structure MemberRec where
  memberId : String
  hasRole : Bool
deriving DecidableEq, Repr

/-- Loop body of removeAllRolesCommand.handle (src/commands/
removeAllRolesCommand.js lines 35-43), accumulating the successful-
removal counter and the list of members whose removal was attempted.
The whole `for` loop sits inside a single `try`; an `await
member.roles.remove(roleId)` rejection therefore throws out of the
loop, which is modelled by returning `Except.error ()` (the generic
failure reply) at the failing member, abandoning the rest of the
list. -/
def removeAllRolesGo (removeOk : String → Bool) (count : Nat)
    (attempted : List String) :
    List MemberRec → List String × Except Unit Nat
  | [] => (attempted, .ok count)
  | m :: rest =>
    if m.hasRole then
      if removeOk m.memberId then
        removeAllRolesGo removeOk (count + 1) (attempted ++ [m.memberId]) rest
      else
        (attempted ++ [m.memberId], .error ())
    else
      removeAllRolesGo removeOk count attempted rest

/-- removeAllRolesCommand.handle on a fetched member list: iterate over
all members, attempting removal for each holder; reply with the
success count, or with the generic failure message when a removal
throws. -/
def removeAllRoles (removeOk : String → Bool) (members : List MemberRec) :
    List String × Except Unit Nat :=
  removeAllRolesGo removeOk 0 [] members

/-- A JavaScript runtime error surfaced by the member-update
handler. -/
inductive JsError where
  | typeError
deriving DecidableEq, Repr

/-- The mutable state read and written by the `guildMemberUpdate`
handler (src/index.js lines 56-62): the per-member debounce map, the
`roles` plain object keyed by guild id, and the update queue. -/
structure BotState where
  roleUpdateLastProcessed : List (String × Int)
  rolesByGuild : List (String × List RoleManager)
  updateQueue : List Job
deriving DecidableEq

/-- Outcome of one `guildMemberUpdate` dispatch: the state left behind
and the error, if the handler threw. -/
structure HandlerResult where
  state : BotState
  error : Option JsError
deriving DecidableEq

/-- The guildMemberUpdate handler (src/index.js lines 284-297).  After
the debounce gate passes and `now` is recorded, line 292 evaluates
`roles.filter(...)`: `roles` is the plain object populated as
`roles[guildId] = ...` by `loadRoles` (line 142), so the property
lookup `roles.filter` is modelled by `alistGet` on its keys.  A plain
object has no own property named "filter" unless a guild were literally
named "filter", and even then the stored value would be an array of
RoleManager instances, not a function; `Object.prototype` supplies no
`filter` either, so the call throws a TypeError in every case and the
handler never reaches the enqueue at lines 293-296. -/
def guildMemberUpdate (st : BotState) (memberId : String) (now : Int) :
    HandlerResult :=
  match shouldProcess st.roleUpdateLastProcessed memberId now with
  | (false, _) => { state := st, error := none }
  | (true, m2) =>
    let st1 := { st with roleUpdateLastProcessed := m2 }
    match alistGet st1.rolesByGuild "filter" with
    | none => { state := st1, error := some .typeError }
    | some _ => { state := st1, error := some .typeError }

/-! Helper lemmas. -/

lemma alistGet_set_self {α : Type} (m : List (String × α)) (id : String) (v : α) :
    alistGet (alistSet m id v) id = some v := by
  simp [alistGet, alistSet]

lemma shouldProcess_true_iff (m : List (String × Int)) (id : String) (now : Int) :
    (shouldProcess m id now).1 = true ↔
      DEBOUNCE_TIME ≤ now - ((alistGet m id).getD 0) := by
  unfold shouldProcess
  split
  · rename_i h; simp; omega
  · rename_i h; simp; omega

lemma shouldProcess_snd_of_true (m : List (String × Int)) (id : String) (now : Int)
    (h : (shouldProcess m id now).1 = true) :
    (shouldProcess m id now).2 = alistSet m id now := by
  unfold shouldProcess at h ⊢
  by_cases hc : now - ((alistGet m id).getD 0) < DEBOUNCE_TIME
  · rw [if_pos hc] at h; exact absurd h (by simp)
  · rw [if_neg hc]

lemma shouldProcess_snd_of_false (m : List (String × Int)) (id : String) (now : Int)
    (h : (shouldProcess m id now).1 = false) :
    (shouldProcess m id now).2 = m := by
  unfold shouldProcess at h ⊢
  by_cases hc : now - ((alistGet m id).getD 0) < DEBOUNCE_TIME
  · rw [if_pos hc]
  · rw [if_neg hc] at h; exact absurd h (by simp)

/-! Theorems settling the claims. -/

/-- Claim C1: for every RoleDependency in the dependency set and every
pair of membership snapshots, the planner marks its roleId for
revocation iff the role was held in the `before` snapshot and at least
one dependency is absent from the `after` snapshot; a role with empty
`dependsOn` is never marked, and a role absent from `before` is never
marked. -/
theorem planner_plan_spec :
    (∀ (r : RoleManager) (before after : List String),
        (checkRemovalNeeded r before after = true ↔
          r.roleId ∈ before ∧ ∃ d ∈ r.removalDependencies, d ∉ after)
        ∧ (r.removalDependencies = [] →
            checkRemovalNeeded r before after = false)
        ∧ (r.roleId ∉ before → checkRemovalNeeded r before after = false))
    ∧ (∀ (depset : List RoleManager) (before after : List String) (x : String),
        x ∈ plan depset before after ↔
          ∃ r ∈ depset, r.roleId = x ∧ r.roleId ∈ before ∧
            ∃ d ∈ r.removalDependencies, d ∉ after) := by
  have hck : ∀ (r : RoleManager) (before after : List String),
      checkRemovalNeeded r before after = true ↔
        r.roleId ∈ before ∧ ∃ d ∈ r.removalDependencies, d ∉ after := by
    intro r before after
    simp [checkRemovalNeeded]
  refine ⟨?_, ?_⟩
  · intro r before after
    refine ⟨hck r before after, ?_, ?_⟩
    · intro hdeps
      simp [checkRemovalNeeded, hdeps]
    · intro hnot
      simp [checkRemovalNeeded, hnot]
  · intro depset before after x
    constructor
    · intro hx
      simp only [plan, List.mem_map, List.mem_filter] at hx
      obtain ⟨r, ⟨hr, hmark⟩, hid⟩ := hx
      obtain ⟨h1, h2⟩ := (hck r before after).mp hmark
      exact ⟨r, hr, hid, h1, h2⟩
    · intro hx
      obtain ⟨r, hr, hid, h1, h2⟩ := hx
      simp only [plan, List.mem_map, List.mem_filter]
      exact ⟨r, ⟨hr, (hck r before after).mpr ⟨h1, h2⟩⟩, hid⟩

/-- Witness for claim C1 at the spec's own scenario: depset
`[{roleId := "A", dependsOn := ["B"]}]`, before `{A, B}`, after `{A}`
gives plan `{A}`. -/
theorem planner_plan_spec_witness :
    "A" ∈ plan [⟨"A", "RoleA", ["B"]⟩] ["A", "B"] ["A"] :=
  (planner_plan_spec.2 [⟨"A", "RoleA", ["B"]⟩] ["A", "B"] ["A"] "A").mpr
    ⟨⟨"A", "RoleA", ["B"]⟩, by simp, rfl, by simp, "B", by simp, by simp⟩

/-- Counterexample to claim C3 as stated: the claim's corollary says
two calls at t1 then t2 with t2 - t1 < DEBOUNCE_TIME return true then
false, but for a never-seen subject the recorded time defaults to 0,
so at t1 = 0 the first call already returns false
(0 - 0 < DEBOUNCE_TIME). -/
theorem shouldProcess_claim_counterexample :
    (shouldProcess [] "m" 0).1 = false ∧ (100 : Int) - 0 < DEBOUNCE_TIME := by
  constructor
  · rfl
  · decide

/-- Claim C3 (amended): shouldProcess returns true iff now minus the
recorded last-processed time (0 when never seen) is at least
DEBOUNCE_TIME, records now exactly when it returns true, and leaves
the map unchanged otherwise; consequently, for a fresh subject whose
first call at t1 passes the gate (DEBOUNCE_TIME ≤ t1, always the case
for a real clock), a second call at t2 returns false when
t2 - t1 < DEBOUNCE_TIME and true when DEBOUNCE_TIME ≤ t2 - t1. -/
theorem shouldProcess_spec :
    (∀ (m : List (String × Int)) (id : String) (now : Int),
        ((shouldProcess m id now).1 = true ↔
          DEBOUNCE_TIME ≤ now - ((alistGet m id).getD 0))
        ∧ ((shouldProcess m id now).1 = true →
            (shouldProcess m id now).2 = alistSet m id now)
        ∧ ((shouldProcess m id now).1 = false →
            (shouldProcess m id now).2 = m))
    ∧ (∀ (id : String) (t1 t2 : Int), DEBOUNCE_TIME ≤ t1 →
        (shouldProcess [] id t1).1 = true
        ∧ (t2 - t1 < DEBOUNCE_TIME →
            (shouldProcess (shouldProcess [] id t1).2 id t2).1 = false)
        ∧ (DEBOUNCE_TIME ≤ t2 - t1 →
            (shouldProcess (shouldProcess [] id t1).2 id t2).1 = true)) := by
  refine ⟨?_, ?_⟩
  · intro m id now
    exact ⟨shouldProcess_true_iff m id now,
      shouldProcess_snd_of_true m id now,
      shouldProcess_snd_of_false m id now⟩
  · intro id t1 t2 h1
    have hfresh : (alistGet ([] : List (String × Int)) id).getD 0 = 0 := rfl
    have e1 : (shouldProcess [] id t1).1 = true := by
      rw [shouldProcess_true_iff, hfresh]
      omega
    have e2 : (shouldProcess [] id t1).2 = alistSet [] id t1 :=
      shouldProcess_snd_of_true [] id t1 e1
    have hget : (alistGet (alistSet [] id t1) id).getD 0 = t1 := by
      rw [alistGet_set_self]
      rfl
    refine ⟨e1, ?_, ?_⟩
    · intro hlt
      rw [e2]
      cases hsec : (shouldProcess (alistSet [] id t1) id t2).1 with
      | false => rfl
      | true =>
        rw [shouldProcess_true_iff, hget] at hsec
        omega
    · intro hge
      rw [e2, shouldProcess_true_iff, hget]
      omega

/-- Witness for claim C3 (amended) at id "m", t1 = 2000, t2 = 2500:
the first call returns true, the second (gap 500 < 1500) returns
false. -/
theorem shouldProcess_spec_witness :
    (shouldProcess [] "m" 2000).1 = true
    ∧ (shouldProcess (shouldProcess [] "m" 2000).2 "m" 2500).1 = false := by
  have h := shouldProcess_spec.2 "m" 2000 2500 (by decide)
  exact ⟨h.1, h.2.1 (by decide)⟩

/-- Claim C2 (code evaluation at the failing input): guild "g1" has a
published dependency set, the member update passes the debouncer, and
the revocation plan for the event against that guild's set is the
non-empty ["A"]; yet the handler throws a TypeError and enqueues
nothing, because line 292 evaluates `roles.filter` on the per-guild
plain object, which has no `filter` property. -/
theorem guildMemberUpdate_throws_on_event :
    guildMemberUpdate
        { roleUpdateLastProcessed := [],
          rolesByGuild := [("g1", [⟨"A", "RoleA", ["B"]⟩])],
          updateQueue := [] } "m1" 100000 =
      { state := { roleUpdateLastProcessed := [("m1", 100000)],
                   rolesByGuild := [("g1", [⟨"A", "RoleA", ["B"]⟩])],
                   updateQueue := [] },
        error := some .typeError }
    ∧ plan [⟨"A", "RoleA", ["B"]⟩] ["A", "B"] ["A"] = ["A"] := by
  exact ⟨rfl, rfl⟩

/-- Claim C5: a missing configuration file (`fs.existsSync` false) or a
failed read (`err` in the callback) leaves the whole configuration
state — the published dependency sets and the stored fingerprints for
every scope — exactly unchanged. -/
theorem loadRoles_missing_preserves (parse : String → Option (List RoleManager))
    (guildId : String) (checkContent : Bool) (st : ConfigState) :
    loadRoles parse guildId checkContent .missing st = (st, .skippedMissing)
    ∧ loadRoles parse guildId checkContent .readError st =
        (st, .skippedReadError) :=
  ⟨rfl, rfl⟩

/-- Demonstration stand-in for `JSON.parse` composed with the map to
RoleManager instances: parses the single well-formed demo document
"good" and fails (models a thrown SyntaxError) on anything else. -/
def parseDemo : String → Option (List RoleManager) := fun s =>
  if s == "good" then some [⟨"A", "RoleA", ["B"]⟩] else none

/-- Counterexample to claim C6 as stated: loading malformed content
"garbage" over a scope whose stored fingerprint is "old" leaves the
roles unchanged but REPLACES the fingerprint with "garbage" (line 141
runs before `JSON.parse` on line 142), and the parse exception
propagates out of the read callback uncaught instead of being logged
and swallowed. -/
theorem loadRoles_parse_error_counterexample :
    loadRoles parseDemo "g1" true (.content "garbage")
        { lastKnownContent := [("g1", "old")],
          roles := [("g1", [⟨"A", "RoleA", ["B"]⟩])] } =
      ({ lastKnownContent := [("g1", "garbage")],
         roles := [("g1", [⟨"A", "RoleA", ["B"]⟩])] }, .parseException)
    ∧ [("g1", "garbage")] ≠ [("g1", "old")] := by
  exact ⟨rfl, by decide⟩

/-- Claim C6 (amended): when the content reaching the parse step is
malformed, the published dependency set of the scope is unchanged, but
the stored fingerprint has already been updated to the new malformed
content, and the parse exception propagates uncaught out of the read
callback (it is not converted to a logged outcome). -/
theorem loadRoles_parse_error_spec (parse : String → Option (List RoleManager))
    (guildId s : String) (checkContent : Bool) (st : ConfigState)
    (hbranch : checkContent = false ∨
      ¬ (alistGet st.lastKnownContent guildId = some s))
    (hp : parse s = none) :
    loadRoles parse guildId checkContent (.content s) st =
      ({ lastKnownContent := alistSet st.lastKnownContent guildId s,
         roles := st.roles }, .parseException) := by
  simp only [loadRoles]
  have hcond :
      (!checkContent || !(alistGet st.lastKnownContent guildId == some s)) =
        true := by
    rcases hbranch with h | h
    · simp [h]
    · simp [h]
  rw [if_pos hcond, hp]

/-- Witness for claim C6 (amended): a fresh scope, malformed content
"bad": the fingerprint becomes "bad", the roles stay empty, the
outcome is the uncaught parse exception. -/
theorem loadRoles_parse_error_spec_witness :
    loadRoles parseDemo "g1" true (.content "bad")
        { lastKnownContent := [], roles := [] } =
      ({ lastKnownContent := [("g1", "bad")], roles := [] },
        .parseException) :=
  loadRoles_parse_error_spec parseDemo "g1" "bad" true
    { lastKnownContent := [], roles := [] } (Or.inr (by decide)) rfl

/-- Claim C7: a reload with checkContent true and content identical to
the stored fingerprint of the scope is a no-op (no dependency-set
swap, no fingerprint change); with content that differs from the
stored fingerprint and parses, the dependency set of the scope is
replaced by the parse of the new content and the fingerprint is
updated to the new content. -/
theorem loadRoles_content_check_spec (parse : String → Option (List RoleManager))
    (guildId s : String) (st : ConfigState) :
    (alistGet st.lastKnownContent guildId = some s →
        loadRoles parse guildId true (.content s) st = (st, .noChange))
    ∧ (∀ rs, ¬ (alistGet st.lastKnownContent guildId = some s) →
        parse s = some rs →
        loadRoles parse guildId true (.content s) st =
          ({ lastKnownContent := alistSet st.lastKnownContent guildId s,
             roles := alistSet st.roles guildId rs }, .reloaded)) := by
  constructor
  · intro h
    simp only [loadRoles]
    rw [if_neg (by simp [h])]
  · intro rs hne hp
    simp only [loadRoles]
    have hcond :
        (!(true : Bool) || !(alistGet st.lastKnownContent guildId == some s)) =
          true := by
      simp [hne]
    rw [if_pos hcond, hp]

/-- Witness for claim C7: scope "g1" with fingerprint "good" reloaded
with identical content "good" is a no-op; a fresh scope reloaded with
"good" swaps in the parsed set and stores the fingerprint. -/
theorem loadRoles_content_check_spec_witness :
    loadRoles parseDemo "g1" true (.content "good")
        { lastKnownContent := [("g1", "good")], roles := [] } =
      ({ lastKnownContent := [("g1", "good")], roles := [] }, .noChange)
    ∧ loadRoles parseDemo "g1" true (.content "good")
        { lastKnownContent := [], roles := [] } =
      ({ lastKnownContent := [("g1", "good")],
         roles := [("g1", [⟨"A", "RoleA", ["B"]⟩])] }, .reloaded) :=
  ⟨(loadRoles_content_check_spec parseDemo "g1" "good"
      { lastKnownContent := [("g1", "good")], roles := [] }).1 (by decide),
   (loadRoles_content_check_spec parseDemo "g1" "good"
      { lastKnownContent := [], roles := [] }).2 [⟨"A", "RoleA", ["B"]⟩]
      (by decide) rfl⟩

lemma drainTrace_jobs (t : Int) (entries : List (Job × Bool × Int)) :
    (drainTrace t entries).map (fun p => p.1) = entries.map (fun e => e.1) := by
  induction entries generalizing t with
  | nil => rfl
  | cons e rest ih =>
    obtain ⟨j, ok, dur⟩ := e
    simp [drainTrace, ih]

lemma drainTrace_chain (t : Int) (entries : List (Job × Bool × Int))
    (hdur : ∀ e ∈ entries, (0 : Int) ≤ e.2.2) :
    List.Chain' (fun a b => a.2.1 + PACING ≤ b.2.1) (drainTrace t entries) := by
  induction entries generalizing t with
  | nil => exact List.chain'_nil
  | cons e rest ih =>
    obtain ⟨j, ok, dur⟩ := e
    have hdur0 : (0 : Int) ≤ dur := hdur (j, ok, dur) (by simp)
    have hrest : ∀ e ∈ rest, (0 : Int) ≤ e.2.2 := fun e he => hdur e (by simp [he])
    have htail := ih (t + dur + PACING) hrest
    cases rest with
    | nil => simp [drainTrace]
    | cons e2 rest2 =>
      obtain ⟨j2, ok2, dur2⟩ := e2
      simp only [drainTrace] at htail ⊢
      exact List.chain'_cons.mpr ⟨by simp; omega, htail⟩

lemma drainTrace_outcome_free (t : Int) (entries : List (Job × Bool × Int)) :
    (drainTrace t (entries.map (fun e => (e.1, !e.2.1, e.2.2)))).map
        (fun p => (p.1, p.2.1)) =
      (drainTrace t entries).map (fun p => (p.1, p.2.1)) := by
  induction entries generalizing t with
  | nil => rfl
  | cons e rest ih =>
    obtain ⟨j, ok, dur⟩ := e
    simp [drainTrace, ih]

/-- Claim C4: draining N queued jobs executes them one at a time in
FIFO enqueue order (each exactly once, so a failed job is dropped
without retry and without losing later jobs), with at least the fixed
pacing interval PACING = 1000 / 50 ms between consecutive removal
calls; flipping every job's success or failure leaves the execution
order and times unchanged. -/
theorem pacedQueue_fifo_paced (t0 : Int) (entries : List (Job × Bool × Int))
    (hdur : ∀ e ∈ entries, (0 : Int) ≤ e.2.2) :
    (drainTrace t0 entries).map (fun p => p.1) = entries.map (fun e => e.1)
    ∧ List.Chain' (fun a b => a.2.1 + PACING ≤ b.2.1) (drainTrace t0 entries)
    ∧ (drainTrace t0 (entries.map (fun e => (e.1, !e.2.1, e.2.2)))).map
          (fun p => (p.1, p.2.1)) =
        (drainTrace t0 entries).map (fun p => (p.1, p.2.1)) :=
  ⟨drainTrace_jobs t0 entries, drainTrace_chain t0 entries hdur,
   drainTrace_outcome_free t0 entries⟩

/-- Witness for claim C4 at the spec scenario: three jobs, the middle
one failing, each settling instantly, starting at time 0: FIFO order
is preserved and consecutive calls are at least PACING apart (total
drain time at least 2 * PACING = 40 ms). -/
theorem pacedQueue_fifo_paced_witness :
    (drainTrace 0 [(⟨"m1", ["A"]⟩, true, 0), (⟨"m2", ["B"]⟩, false, 0),
        (⟨"m3", ["C"]⟩, true, 0)]).map (fun p => p.1) =
      [⟨"m1", ["A"]⟩, ⟨"m2", ["B"]⟩, ⟨"m3", ["C"]⟩]
    ∧ List.Chain' (fun a b => a.2.1 + PACING ≤ b.2.1)
        (drainTrace 0 [(⟨"m1", ["A"]⟩, true, 0), (⟨"m2", ["B"]⟩, false, 0),
          (⟨"m3", ["C"]⟩, true, 0)]) := by
  have h := pacedQueue_fifo_paced 0
    [(⟨"m1", ["A"]⟩, true, 0), (⟨"m2", ["B"]⟩, false, 0),
      (⟨"m3", ["C"]⟩, true, 0)] (by decide)
  exact ⟨h.1, h.2.1⟩

lemma runNotifications_pending (prev : Int) (rest : List Int) (f : List Int)
    (h : List.Chain (fun a b => a ≤ b ∧ b - a < CONFIG_RELOAD_DEBOUNCE) prev rest) :
    rest.foldl notifyAt
        { pending := some (prev + CONFIG_RELOAD_DEBOUNCE), fired := f } =
      { pending := some (lastOf prev rest + CONFIG_RELOAD_DEBOUNCE),
        fired := f } := by
  induction rest generalizing prev with
  | nil => rfl
  | cons u rest2 ih =>
    rw [List.chain_cons] at h
    obtain ⟨⟨hle, hlt⟩, hchain⟩ := h
    have hadv : advanceTo
        { pending := some (prev + CONFIG_RELOAD_DEBOUNCE), fired := f } u =
        { pending := some (prev + CONFIG_RELOAD_DEBOUNCE), fired := f } := by
      simp only [advanceTo]
      rw [if_neg (by omega)]
    have hstep : notifyAt
        { pending := some (prev + CONFIG_RELOAD_DEBOUNCE), fired := f } u =
        { pending := some (u + CONFIG_RELOAD_DEBOUNCE), fired := f } := by
      unfold notifyAt
      rw [hadv]
      rfl
    rw [List.foldl_cons, hstep]
    exact ih u hchain

/-- Claim C8: a burst of config-change notifications for one scope, in
which each notification follows the previous one by less than
CONFIG_RELOAD_DEBOUNCE, fires no reload during the burst and leaves
exactly one pending timer, scheduled CONFIG_RELOAD_DEBOUNCE after the
last notification; once that moment passes, exactly that one reload
has run.  Each notification cancels the pending timer before
scheduling the next one. -/
theorem config_debounce_single_reload (t : Int) (rest : List Int) (tEnd : Int)
    (hchain : List.Chain (fun a b => a ≤ b ∧ b - a < CONFIG_RELOAD_DEBOUNCE)
      t rest)
    (hend : lastOf t rest + CONFIG_RELOAD_DEBOUNCE ≤ tEnd) :
    runNotifications (t :: rest) { pending := none, fired := [] } =
      { pending := some (lastOf t rest + CONFIG_RELOAD_DEBOUNCE), fired := [] }
    ∧ advanceTo (runNotifications (t :: rest) { pending := none, fired := [] })
        tEnd =
      { pending := none,
        fired := [lastOf t rest + CONFIG_RELOAD_DEBOUNCE] } := by
  have h2 : runNotifications (t :: rest) { pending := none, fired := [] } =
      { pending := some (lastOf t rest + CONFIG_RELOAD_DEBOUNCE),
        fired := [] } := by
    unfold runNotifications
    rw [List.foldl_cons]
    exact runNotifications_pending t rest [] hchain
  refine ⟨h2, ?_⟩
  rw [h2]
  simp only [advanceTo]
  rw [if_pos hend]
  rfl

/-- Witness for claim C8 at the spec scenario: two notifications 500 ms
apart (times 0 and 500, window 2000 ms) produce exactly one reload, at
time 2500 = 500 + 2000. -/
theorem config_debounce_single_reload_witness :
    advanceTo (runNotifications [0, 500] { pending := none, fired := [] })
        2500 =
      { pending := none, fired := [2500] } := by
  have h := config_debounce_single_reload 0 [500] 2500
    (List.Chain.cons (by decide) List.Chain.nil) (by decide)
  exact h.2

lemma applyEvent_inv (st : QueueState) (hinv : QInv st) (e : QEvent) :
    QInv (applyEvent st e) := by
  obtain ⟨hle, hiff⟩ := hinv
  cases e with
  | start =>
    simp only [applyEvent, startQueue]
    split
    · exact ⟨hle, hiff⟩
    · rename_i hnp
      have hc : st.consumers ≠ 1 := fun h => hnp (hiff.mpr h)
      refine ⟨?_, ?_⟩
      · show st.consumers + 1 ≤ 1
        omega
      · show true = true ↔ st.consumers + 1 = 1
        constructor
        · intro _
          omega
        · intro _
          rfl
  | step =>
    simp only [applyEvent, consumerStep]
    split
    · exact ⟨hle, hiff⟩
    · rename_i hc0
      split
      · refine ⟨?_, ?_⟩
        · show st.consumers - 1 ≤ 1
          omega
        · show false = true ↔ st.consumers - 1 = 1
          constructor
          · intro hfalse
            exact absurd hfalse (by simp)
          · intro h1
            exact absurd h1 (by omega)
      · exact ⟨hle, hiff⟩
  | enq j => exact ⟨hle, hiff⟩

lemma foldl_applyEvent_inv (st : QueueState) (hinv : QInv st)
    (evs : List QEvent) : QInv (evs.foldl applyEvent st) := by
  induction evs generalizing st with
  | nil => exact hinv
  | cons e evs2 ih => exact ih _ (applyEvent_inv st hinv e)

/-- Claim C9: calling processQueue while a drain is running is a no-op;
the single-consumer invariant (at most one live processNext chain,
flagged by isProcessingQueue) is preserved by every start, step, and
enqueue; a consumer finding the queue empty clears the flag and ends;
and from the idle state an enqueue followed by processQueue begins a
fresh drain with exactly one consumer. -/
theorem pacedQueue_start_idempotent :
    (∀ st : QueueState, st.isProcessingQueue = true → startQueue st = st)
    ∧ (∀ st : QueueState, QInv st →
        ∀ evs : List QEvent, QInv (evs.foldl applyEvent st))
    ∧ consumerStep
        { updateQueue := [], isProcessingQueue := true, consumers := 1 } =
      { updateQueue := [], isProcessingQueue := false, consumers := 0 }
    ∧ (∀ j : Job, startQueue (enqueue
        { updateQueue := [], isProcessingQueue := false, consumers := 0 } j) =
      { updateQueue := [j], isProcessingQueue := true, consumers := 1 }) := by
  refine ⟨?_, ?_, rfl, ?_⟩
  · intro st h
    unfold startQueue
    rw [if_pos h]
  · intro st hinv evs
    exact foldl_applyEvent_inv st hinv evs
  · intro j
    rfl

/-- Witness for claim C9: from the idle initial state, the event
sequence start, enqueue, step preserves the single-consumer
invariant. -/
theorem pacedQueue_start_idempotent_witness :
    QInv ([QEvent.start, QEvent.enq ⟨"m", ["A"]⟩, QEvent.step].foldl applyEvent
      { updateQueue := [], isProcessingQueue := false, consumers := 0 }) :=
  pacedQueue_start_idempotent.2.1
    { updateQueue := [], isProcessingQueue := false, consumers := 0 }
    (by decide) [QEvent.start, QEvent.enq ⟨"m", ["A"]⟩, QEvent.step]

lemma removeAllRolesGo_all_ok (removeOk : String → Bool)
    (members : List MemberRec) (count : Nat) (attempted : List String)
    (h : ∀ m ∈ members, m.hasRole = true → removeOk m.memberId = true) :
    removeAllRolesGo removeOk count attempted members =
      (attempted ++
        (members.filter (fun m => m.hasRole)).map (fun m => m.memberId),
       .ok (count + (members.filter (fun m => m.hasRole)).length)) := by
  induction members generalizing count attempted with
  | nil => simp [removeAllRolesGo]
  | cons m rest ih =>
    have hrest : ∀ x ∈ rest, x.hasRole = true → removeOk x.memberId = true :=
      fun x hx => h x (by simp [hx])
    by_cases hm : m.hasRole = true
    · have hok : removeOk m.memberId = true := h m (by simp) hm
      rw [show removeAllRolesGo removeOk count attempted (m :: rest) =
          removeAllRolesGo removeOk (count + 1) (attempted ++ [m.memberId])
            rest from by simp [removeAllRolesGo, hm, hok]]
      rw [ih (count + 1) (attempted ++ [m.memberId]) hrest]
      simp [List.filter_cons, hm]
      omega
    · have hmf : m.hasRole = false := by
        revert hm; cases m.hasRole <;> simp
      rw [show removeAllRolesGo removeOk count attempted (m :: rest) =
          removeAllRolesGo removeOk count attempted rest from by
            simp [removeAllRolesGo, hmf]]
      rw [ih count attempted hrest]
      simp [List.filter_cons, hmf]

lemma removeAllRolesGo_abort (removeOk : String → Bool) (pre : List MemberRec)
    (m : MemberRec) (post : List MemberRec) (count : Nat)
    (attempted : List String)
    (hpre : ∀ x ∈ pre, x.hasRole = true → removeOk x.memberId = true)
    (hm : m.hasRole = true) (hfail : removeOk m.memberId = false) :
    removeAllRolesGo removeOk count attempted (pre ++ m :: post) =
      (attempted ++
        (pre.filter (fun x => x.hasRole)).map (fun x => x.memberId) ++
        [m.memberId],
       .error ()) := by
  induction pre generalizing count attempted with
  | nil => simp [removeAllRolesGo, hm, hfail]
  | cons x rest ih =>
    have hrest : ∀ y ∈ rest, y.hasRole = true → removeOk y.memberId = true :=
      fun y hy => hpre y (by simp [hy])
    by_cases hx : x.hasRole = true
    · have hok : removeOk x.memberId = true := hpre x (by simp) hx
      rw [show removeAllRolesGo removeOk count attempted
          ((x :: rest) ++ m :: post) =
          removeAllRolesGo removeOk (count + 1) (attempted ++ [x.memberId])
            (rest ++ m :: post) from by simp [removeAllRolesGo, hx, hok]]
      rw [ih (count + 1) (attempted ++ [x.memberId]) hrest]
      simp [List.filter_cons, hx]
    · have hxf : x.hasRole = false := by
        revert hx; cases x.hasRole <;> simp
      rw [show removeAllRolesGo removeOk count attempted
          ((x :: rest) ++ m :: post) =
          removeAllRolesGo removeOk count attempted (rest ++ m :: post) from by
            simp [removeAllRolesGo, hxf]]
      rw [ih count attempted hrest]
      simp [List.filter_cons, hxf]

/-- Stand-in removal outcome for the counterexample: the removal call
rejects for member "b" and resolves for everyone else. -/
def removeOkDemo : String → Bool := fun id => !(id == "b")

/-- Counterexample to claim C10 as stated: three members all hold the
role, the removal for "b" fails; the claim requires all three to be
attempted, failures collected, and the success count reported, but the
code attempts only "a" and "b" — the rejection of "b" throws out of
the for loop into the single catch, "c" is never attempted, and the
reply is the generic failure message, not a count. -/
theorem removeAllRoles_claim_counterexample :
    removeAllRoles removeOkDemo
        [⟨"a", true⟩, ⟨"b", true⟩, ⟨"c", true⟩] =
      (["a", "b"], .error ()) := by
  rfl

/-- Claim C10 (amended): the bulk-revoke command attempts the removal
for holders of the role in member order only until the first failure:
when every removal succeeds, each holder is attempted exactly once and
the reported result is the count of holders (all removals successful);
a failing removal aborts the iteration at that member — later holders
are not attempted — and the command reports a generic failure instead
of a count. -/
theorem removeAllRoles_spec (removeOk : String → Bool)
    (members : List MemberRec) :
    ((∀ m ∈ members, m.hasRole = true → removeOk m.memberId = true) →
      removeAllRoles removeOk members =
        ((members.filter (fun m => m.hasRole)).map (fun m => m.memberId),
         .ok (members.filter (fun m => m.hasRole)).length))
    ∧ (∀ pre m post, members = pre ++ m :: post →
        (∀ x ∈ pre, x.hasRole = true → removeOk x.memberId = true) →
        m.hasRole = true → removeOk m.memberId = false →
        removeAllRoles removeOk members =
          ((pre.filter (fun x => x.hasRole)).map (fun x => x.memberId) ++
            [m.memberId],
           .error ())) := by
  constructor
  · intro h
    unfold removeAllRoles
    rw [removeAllRolesGo_all_ok removeOk members 0 [] h]
    simp
  · intro pre m post hsplit hpre hm hfail
    unfold removeAllRoles
    rw [hsplit, removeAllRolesGo_abort removeOk pre m post 0 [] hpre hm hfail]
    simp

/-- Witness for claim C10 (amended): with every removal succeeding,
two holders out of three members give the attempted list ["a", "c"]
and the reported count 2. -/
theorem removeAllRoles_spec_witness :
    removeAllRoles (fun _ => true)
        [⟨"a", true⟩, ⟨"b", false⟩, ⟨"c", true⟩] =
      (["a", "c"], .ok 2) := by
  have h := (removeAllRoles_spec (fun _ => true)
    [⟨"a", true⟩, ⟨"b", false⟩, ⟨"c", true⟩]).1 (by decide)
  exact h

end RoleBot
